import Mathlib

/-!
Verification of the dual-mode tool-call extraction engine of this repository:
the tag-delimited extractor (DeepSeek R1 grammar,
src/vllm/entrypoints/openai/tool_parsers/deepseek_r1.py) and the
implicit-JSON extractor (Phi-4 reasoning grammar,
src/vllm/entrypoints/openai/tool_parsers/phi4_reasoning_tool_parser.py),
each with a full-text mode and a streaming mode.

The embedding works on explicit character lists.  Python string and regex
operations used by the source (substring search, str.split with a separator,
str.strip, the two concrete regular expressions, json.loads / json.dumps)
are modelled as executable Lean functions.  Modelling notes:

* JSON numbers are modelled as integers; the source's Python json module
  would additionally accept floats.  None of the verified properties
  depends on non-integer numerals, and all concrete inputs used below are
  integer-valued.
* String escapes cover the backslash escapes produced by json.dumps with
  ensure_ascii=False (quote, backslash, newline, tab, carriage return)
  plus the slash, backspace and form-feed escapes accepted by json.loads;
  \u escapes are not modelled and make a candidate span undecodable.
* Python dicts built by json.loads keep the last value of a duplicated
  key; object lookup below does the same on the association list.
* str.strip() trims the ASCII whitespace characters; the exotic Unicode
  space classes Python would additionally trim do not occur in any input
  considered here.
-/

/-- The whitespace characters trimmed by Python str.strip() (ASCII part). -/
def isPySpace (c : Char) : Bool :=
  c = ' ' || c = '\t' || c = '\n' || c = '\x0d' || c = '\x0b' || c = '\x0c'

/-- Python str.strip(): drop leading and trailing whitespace. -/
def stripChars (l : List Char) : List Char :=
  ((l.dropWhile isPySpace).reverse.dropWhile isPySpace).reverse

/-- Python str.strip() on a String. -/
def pyStrip (s : String) : String :=
  String.mk (stripChars s.toList)

/-- Index of the first occurrence of pattern pat in l, if any
(Python str.find / the "in" operator). -/
def findSub (pat : List Char) : List Char → Option Nat
  | [] => if pat = [] then some 0 else none
  | c :: rest =>
    if pat.isPrefixOf (c :: rest) then some 0
    else (findSub pat rest).map (fun n => n + 1)

/-- Python sub in s (the "in" operator on strings). -/
def hasSub (l : List Char) (pat : List Char) : Bool :=
  (findSub pat l).isSome

/-- Python s.split(sep, 1)[0] (and s.split(sep)[0]): the text before the
first occurrence of sep, or all of s when sep does not occur. -/
def pySplitHead (l : List Char) (sep : List Char) : List Char :=
  match findSub sep l with
  | some i => l.take i
  | none => l

/-- The whitespace characters the JSON grammar skips between tokens. -/
def isJsonWs (c : Char) : Bool :=
  c = ' ' || c = '\t' || c = '\n' || c = '\x0d'

/-- Skip JSON inter-token whitespace. -/
def skipWs (l : List Char) : List Char :=
  l.dropWhile isJsonWs

/-- ASCII decimal digit test. -/
def isDigitC (c : Char) : Bool :=
  48 ≤ c.toNat && c.toNat ≤ 57

/-- The decimal digit character for d < 10. -/
def digitChar : Nat → Char
  | 0 => '0' | 1 => '1' | 2 => '2' | 3 => '3' | 4 => '4'
  | 5 => '5' | 6 => '6' | 7 => '7' | 8 => '8' | 9 => '9'
  | _ => '0'

/-- Numeric value of a list of decimal digit characters. -/
def digitsVal (l : List Char) : Nat :=
  l.foldl (fun a c => 10 * a + (c.toNat - 48)) 0

/-- Fuel-indexed digit expansion; the fuel only bounds the division
recursion and n + 1 is always ample, since the value shrinks by a factor
of ten per step. -/
def natToDigitsAux : Nat → Nat → List Char
  | 0, _ => []
  | Nat.succ fuel, n =>
    if n < 10 then [digitChar n]
    else natToDigitsAux fuel (n / 10) ++ [digitChar (n % 10)]

/-- Decimal digit characters of a natural number, most significant first
(the digits Python repr / json.dumps emits for a non-negative int). -/
def natToDigits (n : Nat) : List Char :=
  natToDigitsAux (n + 1) n

mutual

/-- JSON values as decoded by json.loads, with integer numerals.
Object members are kept in textual order.  Arrays and objects carry their
own mutually inductive list types so that every function below is plain
structural recursion. -/
inductive Json where
  | null : Json
  | bool : Bool → Json
  | num : Int → Json
  | str : String → Json
  | arr : JsonItems → Json
  | obj : JsonMembers → Json

/-- The items of a JSON array, in order. -/
inductive JsonItems where
  | nil : JsonItems
  | cons : Json → JsonItems → JsonItems

/-- The members of a JSON object, in textual order. -/
inductive JsonMembers where
  | nil : JsonMembers
  | cons : String → Json → JsonMembers → JsonMembers

end

/-- Escape one character the way json.dumps (ensure_ascii=False) does for
the characters that occur in this development. -/
def escChar (c : Char) : List Char :=
  if c = '"' then ['\\', '"']
  else if c = '\\' then ['\\', '\\']
  else if c = '\n' then ['\\', 'n']
  else if c = '\t' then ['\\', 't']
  else if c = '\x0d' then ['\\', 'r']
  else [c]

/-- Escape a string body for a JSON string literal. -/
def escapeChars (l : List Char) : List Char :=
  l.flatMap escChar

mutual

/-- The characters json.dumps(x, ensure_ascii=False) produces, with the
default separators (", " between items, ": " after keys). -/
def dumpChars : Json → List Char
  | .null => "null".toList
  | .bool b => (if b then "true" else "false").toList
  | .num n =>
    if n < 0 then '-' :: natToDigits n.natAbs else natToDigits n.toNat
  | .str s => '"' :: (escapeChars s.toList ++ ['"'])
  | .arr .nil => ['[', ']']
  | .arr (.cons x xs) => '[' :: (dumpItems (.cons x xs) ++ [']'])
  | .obj .nil => ['\x7b', '\x7d']
  | .obj (.cons k v kvs) => '\x7b' :: (dumpMembers (.cons k v kvs) ++ ['\x7d'])

/-- Serialized array items, ", "-separated (only ever applied to a
non-empty item list). -/
def dumpItems : JsonItems → List Char
  | .nil => []
  | .cons x .nil => dumpChars x
  | .cons x (.cons y ys) => dumpChars x ++ (',' :: ' ' :: dumpItems (.cons y ys))

/-- Serialized object members, ", "-separated, ": " after each key (only
ever applied to a non-empty member list). -/
def dumpMembers : JsonMembers → List Char
  | .nil => []
  | .cons k v .nil => '"' :: (escapeChars k.toList ++ ('"' :: ':' :: ' ' :: dumpChars v))
  | .cons k v (.cons k2 v2 rest) =>
    '"' :: (escapeChars k.toList ++ ('"' :: ':' :: ' ' :: dumpChars v))
      ++ (',' :: ' ' :: dumpMembers (.cons k2 v2 rest))

end

/-- Undo one backslash escape inside a JSON string literal
(the escapes json.loads accepts, \u excluded as noted above). -/
def unescChar (c : Char) : Option Char :=
  if c = '"' then some '"'
  else if c = '\\' then some '\\'
  else if c = '/' then some '/'
  else if c = 'n' then some '\n'
  else if c = 't' then some '\t'
  else if c = 'r' then some '\x0d'
  else if c = 'b' then some '\x08'
  else if c = 'f' then some '\x0c'
  else none

/-- Parse the body of a JSON string literal after the opening quote:
returns the decoded characters and the remainder after the closing quote. -/
def parseStrAux : List Char → Option (List Char × List Char)
  | [] => none
  | c :: rest =>
    if c = '"' then some ([], rest)
    else if c = '\\' then
      match rest with
      | [] => none
      | e :: rest2 =>
        match unescChar e with
        | none => none
        | some u => (parseStrAux rest2).map (fun p => (u :: p.1, p.2))
    else (parseStrAux rest).map (fun p => (c :: p.1, p.2))

/-- Parse a run of decimal digits into a natural number.
Python json also accepts floats and rejects leading zeros; integer inputs
are all this development needs, as noted in the header. -/
def parseNat (l : List Char) : Option (Nat × List Char) :=
  let ds := l.takeWhile isDigitC
  if ds.isEmpty then none else some (digitsVal ds, l.dropWhile isDigitC)

mutual

/-- Fuel-indexed JSON value parser (the model of json.loads).  The fuel
only bounds the nesting recursion; jsonLoads supplies length + 1, which is
ample because every recursive call consumes at least one character. -/
def parseVal : Nat → List Char → Option (Json × List Char)
  | 0, _ => none
  | Nat.succ fuel, l0 =>
    match skipWs l0 with
    | [] => none
    | c :: l =>
      if c = 'n' then
        if ['u', 'l', 'l'].isPrefixOf l then some (.null, l.drop 3) else none
      else if c = 't' then
        if ['r', 'u', 'e'].isPrefixOf l then some (.bool true, l.drop 3) else none
      else if c = 'f' then
        if ['a', 'l', 's', 'e'].isPrefixOf l then some (.bool false, l.drop 4) else none
      else if c = '"' then
        (parseStrAux l).map (fun p => (.str (String.mk p.1), p.2))
      else if c = '[' then
        match skipWs l with
        | [] => none
        | d :: r =>
          if d = ']' then some (.arr .nil, r)
          else (parseItems fuel (d :: r)).map (fun p => (.arr p.1, p.2))
      else if c = '\x7b' then
        match skipWs l with
        | [] => none
        | d :: r =>
          if d = '\x7d' then some (.obj .nil, r)
          else (parseMembers fuel (d :: r)).map (fun p => (.obj p.1, p.2))
      else if c = '-' then
        match parseNat l with
        | some (n, r) => some (.num (-(n : Int)), r)
        | none => none
      else
        match parseNat (c :: l) with
        | some (n, r) => some (.num (n : Int), r)
        | none => none

/-- One or more array items followed by the closing bracket. -/
def parseItems : Nat → List Char → Option (JsonItems × List Char)
  | 0, _ => none
  | Nat.succ fuel, l =>
    match parseVal fuel l with
    | none => none
    | some (v, r) =>
      match skipWs r with
      | ',' :: r2 => (parseItems fuel r2).map (fun p => (JsonItems.cons v p.1, p.2))
      | ']' :: r2 => some (JsonItems.cons v .nil, r2)
      | _ => none

/-- One or more object members followed by the closing brace. -/
def parseMembers : Nat → List Char → Option (JsonMembers × List Char)
  | 0, _ => none
  | Nat.succ fuel, l =>
    match l with
    | '"' :: l1 =>
      match parseStrAux l1 with
      | none => none
      | some (kcs, r1) =>
        match skipWs r1 with
        | ':' :: r2 =>
          match parseVal fuel r2 with
          | none => none
          | some (v, r3) =>
            match skipWs r3 with
            | ',' :: r4 =>
              (parseMembers fuel (skipWs r4)).map
                (fun p => (JsonMembers.cons (String.mk kcs) v p.1, p.2))
            | '\x7d' :: r4 => some (JsonMembers.cons (String.mk kcs) v .nil, r4)
            | _ => none
        | _ => none
    | _ => none

end

/-- json.loads on a character list: parse one value, then require only
whitespace to remain. -/
def jsonLoadsChars (l : List Char) : Option Json :=
  match parseVal (l.length + 1) l with
  | some (v, r) => if skipWs r = [] then some v else none
  | none => none

/-- json.loads on a String. -/
def jsonLoads (s : String) : Option Json :=
  jsonLoadsChars s.toList

/-- Python dict lookup obj[k] on a decoded JSON value: none when the value
is not an object or the key is missing (KeyError / TypeError in the
source, always caught and turned into a skip).  A duplicated key keeps
its last value, as in the dict json.loads builds. -/
def jsonLookupAux (k : String) : JsonMembers → Option Json → Option Json
  | .nil, acc => acc
  | .cons k2 v rest, acc => jsonLookupAux k rest (if k2 = k then some v else acc)

/-- Python dict lookup obj[k] on a decoded JSON value (see the doc comment
above on duplicated keys): none when the value is not an object or the key
is missing. -/
def jsonLookup (v : Json) (k : String) : Option Json :=
  match v with
  | .obj kvs => jsonLookupAux k kvs none
  | _ => none

/-- FunctionCall of vllm.entrypoints.openai.protocol: function name and
arguments serialized as JSON text. -/
structure FunctionCall where
  name : String
  arguments : String
deriving DecidableEq, Repr

/-- ToolCall of vllm.entrypoints.openai.protocol (type is always the
literal "function" in both extractors). -/
structure ToolCall where
  type : String
  function : FunctionCall
deriving DecidableEq, Repr

/-- ExtractedToolCallInformation of vllm.entrypoints.openai.protocol, the
non-streaming extraction result. -/
structure ExtractedToolCallInformation where
  tools_called : Bool
  tool_calls : List ToolCall
  content : Option String
deriving DecidableEq, Repr

/-- DeltaToolCall of vllm.entrypoints.openai.protocol, flattened: the
DeltaFunctionCall payload name/arguments fields are inlined. -/
structure DeltaToolCall where
  index : Nat
  type : String
  id : String
  name : String
  arguments : String
deriving DecidableEq, Repr

/-- DeltaMessage of vllm.entrypoints.openai.protocol: per-step streaming
output, carrying plain content or tool-call deltas. -/
structure DeltaMessage where
  content : Option String
  tool_calls : List DeltaToolCall
deriving DecidableEq, Repr

/-- Modelled from the spec: the Call Record Builder, section 4.4.  The
validation performed by the pydantic FunctionCall model
(vllm.entrypoints.openai.protocol, not under src/) is modelled after the
spec's contract: building fails if the raw name is not a string or is
empty; the argument object is serialized with json.dumps.  In the source
a failure here raises inside the per-span try block and the span is
skipped. -/
def buildCallRecord (rawName : Json) (rawArgs : Json) : Option ToolCall :=
  match rawName with
  | .str s =>
    if s = "" then none
    else some ⟨"function", ⟨s, String.mk (dumpChars rawArgs)⟩⟩
  | _ => none

/-- The per-span loop shared by both extract_tool_calls bodies: decode
each candidate, appending the record on success and continuing silently
on failure (the except/continue of the source). -/
def extractLoop (decode : List Char → Option ToolCall) : List (List Char) → List ToolCall
  | [] => []
  | x :: rest =>
    match decode x with
    | none => extractLoop decode rest
    | some tc => tc :: extractLoop decode rest

namespace DeepSeekR1

/-- Tool call tags as per the DeepSeek R1 chat template (deepseek_r1.py). -/
def calls_begin : String := "<｜tool▁call▁begin｜>"

/-- End tag (deepseek_r1.py). -/
def calls_end : String := "<｜tool▁call▁end｜>"

/-- Inner begin tag; the source sets it to the same string as calls_begin. -/
def call_begin : String := calls_begin

/-- Inner end tag; the source sets it to the same string as calls_end. -/
def call_end : String := calls_end

/-- The compiled block pattern escape(call_begin)(.*?)escape(call_end)
with DOTALL, as a scanner: from the cursor, find the next begin tag, then
the first end tag after it (the non-greedy body), record the span start
and body, and continue after the end tag (findall / finditer semantics,
non-overlapping, left to right).  When no end tag follows a begin tag
there is no further match at all, since later begin tags sit even
further right.  Fuel l.length + 1 is ample: every step advances the
cursor by at least the two tag lengths. -/
def scanBlocks (l : List Char) : Nat → Nat → List (Nat × List Char)
  | 0, _ => []
  | Nat.succ fuel, pos =>
    match findSub call_begin.toList (l.drop pos) with
    | none => []
    | some j =>
      let bodyStart := pos + j + call_begin.toList.length
      match findSub call_end.toList (l.drop bodyStart) with
      | none => []
      | some d =>
        (pos + j, (l.drop bodyStart).take d)
          :: scanBlocks l fuel (bodyStart + d + call_end.toList.length)

/-- All matches of tool_call_block_re with their start index and captured
group-1 body. -/
def toolCallBlocks (l : List Char) : List (Nat × List Char) :=
  scanBlocks l (l.length + 1) 0

/-- Decoding of one captured block body: strip it, skip it when empty,
json.loads it, read obj["name"] and obj["parameters"], and build the
record.  Any failure is the except branch of the source: the block
yields nothing. -/
def decodeBlock (body : List Char) : Option ToolCall :=
  let json_str := stripChars body
  if json_str.isEmpty then none
  else
    match jsonLoadsChars json_str with
    | none => none
    | some call_obj =>
      match jsonLookup call_obj "name", jsonLookup call_obj "parameters" with
      | some nm, some ps => buildCallRecord nm ps
      | _, _ => none

/-- DeepSeekR1ToolParser.extract_tool_calls.  The top-level try/except of
the source converts any escaping exception into the no-calls fallback;
every operation in this model is total, so that branch cannot fire and
is not represented. -/
def extract_tool_calls (model_output : String) : ExtractedToolCallInformation :=
  if !hasSub model_output.toList calls_begin.toList then
    ⟨false, [], some model_output⟩
  else
    let tool_calls := extractLoop decodeBlock ((toolCallBlocks model_output.toList).map (fun p => p.2))
    let content := pyStrip (String.mk (pySplitHead model_output.toList calls_begin.toList))
    ⟨!tool_calls.isEmpty, tool_calls, if content = "" then none else some content⟩

/-- DeepSeekR1ToolParser.extract_tool_calls_streaming.  previous_text and
the three token-id sequences are ignored by the source and omitted here.
fresh_id is the value returned by the external id generator
random_tool_call_id (vllm.entrypoints.chat_utils, outside src/; the spec
treats it as the injected "generate a fresh unique string" capability) at
this emission.  The source re-decodes the last complete block on every
step and hardcodes index 0. -/
def extract_tool_calls_streaming (current_text delta_text fresh_id : String) :
    Option DeltaMessage :=
  let blocks := toolCallBlocks current_text.toList
  match blocks.getLast? with
  | none => some ⟨some delta_text, []⟩
  | some m =>
    match decodeBlock m.2 with
    | none => none
    | some tc =>
      some ⟨none, [⟨0, "function", fresh_id, tc.function.name, tc.function.arguments⟩]⟩

end DeepSeekR1

namespace Phi4Reasoning

/-- Position after the maximal run of regex \s characters from i. -/
def skipWsIdx (l : List Char) (i : Nat) : Nat :=
  i + ((l.drop i).takeWhile isPySpace).length

/-- Match a literal at position i; position after it on success.  In the
pattern a greedy \s* followed by a literal that starts with a
non-whitespace character is deterministic, so every \s* below is the
maximal run. -/
def litAt (lit : List Char) (l : List Char) (i : Nat) : Option Nat :=
  if lit.isPrefixOf (l.drop i) then some (i + lit.length) else none

/-- First position j at or after i with l[j] = c. -/
def findCharFrom (c : Char) (l : List Char) (i : Nat) : Option Nat :=
  ((l.drop i).findIdx? (fun d => d = c)).map (fun j => i + j)

/-- The part of TOOL_CALL_REGEX after the name value's closing quote:
a comma, the "arguments" key, a colon (each wrapped in \s*) and the
non-greedy body up to the first closing brace.  Since \s never matches a
closing brace, \s*.*?\} ends at the first closing brace after the colon.
Returns the match end (exclusive). -/
def matchTail (l : List Char) (i : Nat) : Option Nat :=
  match litAt [','] l (skipWsIdx l i) with
  | none => none
  | some j1 =>
    match litAt ('"' :: ("arguments".toList ++ ['"'])) l (skipWsIdx l j1) with
    | none => none
    | some j2 =>
      match litAt [':'] l (skipWsIdx l j2) with
      | none => none
      | some j3 =>
        match findCharFrom '\x7d' l j3 with
        | none => none
        | some j4 => some (j4 + 1)

/-- The lazy ".*?" name value: the backtracking engine closes the string
at each following quote character in turn and keeps the first one whose
continuation succeeds.  The cursor q advances strictly at every step, so
fuel l.length + 1 is ample. -/
def tryCloseQuote (l : List Char) : Nat → Nat → Option Nat
  | 0, _ => none
  | Nat.succ fuel, q =>
    match findCharFrom '"' l q with
    | none => none
    | some qp =>
      match matchTail l (qp + 1) with
      | some e => some e
      | none => tryCloseQuote l fuel (qp + 1)

/-- TOOL_CALL_REGEX tried at position i (DOTALL): an opening brace, the
quoted name key, a colon, the quoted lazy name value, then matchTail;
\s* between tokens.  Returns the match end (exclusive). -/
def matchAt (l : List Char) (i : Nat) : Option Nat :=
  match litAt ['\x7b'] l i with
  | none => none
  | some j0 =>
    match litAt ('"' :: ("name".toList ++ ['"'])) l (skipWsIdx l j0) with
    | none => none
    | some j1 =>
      match litAt [':'] l (skipWsIdx l j1) with
      | none => none
      | some j2 =>
        match litAt ['"'] l (skipWsIdx l j2) with
        | none => none
        | some j3 => tryCloseQuote l (l.length + 1) j3

/-- TOOL_CALL_REGEX.findall: scan left to right, keep the leftmost match,
continue scanning at its end (matches are non-empty, so the cursor always
advances; fuel l.length + 1 is ample).  Returns the matched substrings,
as the pattern has no capture group. -/
def findAll (l : List Char) : Nat → Nat → List (List Char)
  | 0, _ => []
  | Nat.succ fuel, i =>
    if i < l.length then
      match matchAt l i with
      | some e => ((l.drop i).take (e - i)) :: findAll l fuel (max e (i + 1))
      | none => findAll l fuel (i + 1)
    else []

/-- All TOOL_CALL_REGEX matches of the text. -/
def toolCallMatches (l : List Char) : List (List Char) :=
  findAll l (l.length + 1) 0

/-- Decoding of one matched substring: json.loads it, read call["name"]
and call["arguments"], and build the record; any failure is the except
branch (the match yields nothing). -/
def decodeMatch (m : List Char) : Option ToolCall :=
  match jsonLoadsChars m with
  | none => none
  | some call =>
    match jsonLookup call "name", jsonLookup call "arguments" with
    | some nm, some args => buildCallRecord nm args
    | _, _ => none

/-- Phi4ReasoningToolParser.extract_tool_calls. -/
def extract_tool_calls (model_output : String) : ExtractedToolCallInformation :=
  let ms := toolCallMatches model_output.toList
  let tool_calls := extractLoop decodeMatch ms
  let content :=
    match ms with
    | [] => model_output
    | m :: _ => pyStrip (String.mk (pySplitHead model_output.toList m))
  ⟨!tool_calls.isEmpty, tool_calls,
    if tool_calls.isEmpty then some model_output else some content⟩

/-- Phi4ReasoningToolParser.extract_tool_calls_streaming.  previous_text
and the token-id sequences are ignored by the source and omitted here.
fresh_id is the value the external id generator would supply at this
emission; the source never calls it and instead hardcodes the literal
id "phi4_tool_call_stream".  The index is len(matches) - 1. -/
def extract_tool_calls_streaming (current_text delta_text _fresh_id : String) :
    Option DeltaMessage :=
  let ms := toolCallMatches current_text.toList
  match ms.getLast? with
  | none => some ⟨some delta_text, []⟩
  | some m =>
    match decodeMatch m with
    | none => none
    | some tc =>
      some ⟨none,
        [⟨ms.length - 1, "function", "phi4_tool_call_stream",
          tc.function.name, tc.function.arguments⟩]⟩

end Phi4Reasoning

/-! Helper lemmas: decimal digits, string escapes, and the JSON
round trip, used to show that every serialized arguments payload is
decodable JSON text. -/

/-- True when the list does not start with a decimal digit; appending
such a remainder does not disturb number parsing. -/
def noDigitHead : List Char → Bool
  | [] => true
  | c :: _ => !(isDigitC c)

theorem takeWhile_append_of_all {p : Char → Bool} {l r : List Char}
    (h : l.all p = true) : (l ++ r).takeWhile p = l ++ r.takeWhile p := by
  induction l with
  | nil => simp
  | cons c cs ih =>
    simp only [List.all_cons, Bool.and_eq_true] at h
    simp [List.takeWhile_cons, h.1, ih h.2]

theorem dropWhile_append_of_all {p : Char → Bool} {l r : List Char}
    (h : l.all p = true) : (l ++ r).dropWhile p = r.dropWhile p := by
  induction l with
  | nil => simp
  | cons c cs ih =>
    simp only [List.all_cons, Bool.and_eq_true] at h
    simp [List.dropWhile_cons, h.1, ih h.2]

theorem takeWhile_eq_nil_of_noDigitHead {r : List Char}
    (h : noDigitHead r = true) : r.takeWhile isDigitC = [] := by
  cases r with
  | nil => simp
  | cons c cs => simp_all [noDigitHead, List.takeWhile_cons]

theorem dropWhile_eq_self_of_noDigitHead {r : List Char}
    (h : noDigitHead r = true) : r.dropWhile isDigitC = r := by
  cases r with
  | nil => simp
  | cons c cs => simp_all [noDigitHead, List.dropWhile_cons]

theorem digitChar_isDigit {d : Nat} (h : d < 10) :
    isDigitC (digitChar d) = true := by
  interval_cases d <;> decide

theorem digitChar_val {d : Nat} (h : d < 10) :
    (digitChar d).toNat - 48 = d := by
  interval_cases d <;> decide

theorem natToDigitsAux_spec : ∀ fuel n, n < fuel →
    (natToDigitsAux fuel n).all isDigitC = true ∧ natToDigitsAux fuel n ≠ [] ∧
      digitsVal (natToDigitsAux fuel n) = n := by
  intro fuel
  induction fuel with
  | zero => omega
  | succ fuel ih =>
    intro n hn
    rw [natToDigitsAux]
    by_cases h : n < 10
    · simp only [h, if_true]
      refine ⟨by simp [digitChar_isDigit h], by simp, ?_⟩
      simp [digitsVal, digitChar_val h]
    · simp only [h, if_false]
      have hdiv : n / 10 < fuel := by
        have : n / 10 < n := Nat.div_lt_self (by omega) (by omega)
        omega
      obtain ⟨hall, hne, hval⟩ := ih (n / 10) hdiv
      have hm : n % 10 < 10 := Nat.mod_lt _ (by omega)
      refine ⟨?_, by simp, ?_⟩
      · simp [List.all_append, hall, digitChar_isDigit hm]
      · simp only [digitsVal, List.foldl_append]
        have hv2 : digitsVal (natToDigitsAux fuel (n / 10)) = n / 10 := hval
        simp only [digitsVal] at hv2
        rw [hv2]
        simp [List.foldl, digitChar_val hm]
        omega

theorem natToDigits_spec (n : Nat) :
    (natToDigits n).all isDigitC = true ∧ natToDigits n ≠ [] ∧
      digitsVal (natToDigits n) = n :=
  natToDigitsAux_spec (n + 1) n (by omega)

theorem parseNat_digits (m : Nat) (rest : List Char)
    (h : noDigitHead rest = true) :
    parseNat (natToDigits m ++ rest) = some (m, rest) := by
  obtain ⟨hall, hne, hval⟩ := natToDigits_spec m
  simp only [parseNat, takeWhile_append_of_all hall, dropWhile_append_of_all hall,
    takeWhile_eq_nil_of_noDigitHead h, dropWhile_eq_self_of_noDigitHead h,
    List.append_nil]
  simp [List.isEmpty_iff, hne, hval]

theorem escapeChars_cons (c : Char) (cs : List Char) :
    escapeChars (c :: cs) = escChar c ++ escapeChars cs := by
  simp [escapeChars]

theorem parseStrAux_escape (l : List Char) (tail : List Char) :
    parseStrAux (escapeChars l ++ '"' :: tail) = some (l, tail) := by
  induction l with
  | nil =>
    simp only [escapeChars, List.flatMap_nil, List.nil_append]
    rw [parseStrAux.eq_def]
    simp
  | cons c cs ih =>
    rw [escapeChars_cons]
    by_cases h1 : c = '"'
    · subst h1
      rw [show escChar '"' = ['\\', '"'] from rfl]
      simp only [List.cons_append, List.nil_append]
      rw [parseStrAux.eq_def]
      simp [unescChar, ih]
    · by_cases h2 : c = '\\'
      · subst h2
        rw [show escChar '\\' = ['\\', '\\'] from rfl]
        simp only [List.cons_append, List.nil_append]
        rw [parseStrAux.eq_def]
        simp [unescChar, ih]
      · by_cases h3 : c = '\n'
        · subst h3
          rw [show escChar '\n' = ['\\', 'n'] from rfl]
          simp only [List.cons_append, List.nil_append]
          rw [parseStrAux.eq_def]
          simp [unescChar, ih]
        · by_cases h4 : c = '\t'
          · subst h4
            rw [show escChar '\t' = ['\\', 't'] from rfl]
            simp only [List.cons_append, List.nil_append]
            rw [parseStrAux.eq_def]
            simp [unescChar, ih]
          · by_cases h5 : c = '\x0d'
            · subst h5
              rw [show escChar '\x0d' = ['\\', 'r'] from rfl]
              simp only [List.cons_append, List.nil_append]
              rw [parseStrAux.eq_def]
              simp [unescChar, ih]
            · rw [show escChar c = [c] by simp [escChar, h1, h2, h3, h4, h5]]
              simp only [List.cons_append, List.nil_append]
              rw [parseStrAux.eq_def]
              simp [h1, h2, ih]

theorem mk_toList (s : String) : String.mk s.toList = s := rfl


mutual

def sizeV : Json → Nat
  | .null => 1
  | .bool _ => 1
  | .num _ => 1
  | .str _ => 1
  | .arr its => 1 + sizeItems its
  | .obj ms => 1 + sizeMembers ms

def sizeItems : JsonItems → Nat
  | .nil => 0
  | .cons x xs => 1 + sizeV x + sizeItems xs

def sizeMembers : JsonMembers → Nat
  | .nil => 0
  | .cons _ v rest => 1 + sizeV v + sizeMembers rest

end

theorem sizeV_pos (v : Json) : 1 ≤ sizeV v := by
  rcases v with _ | b | n | s | its | ms <;> simp only [sizeV] <;> omega

theorem skipWs_cons_neg {c : Char} (hc : isJsonWs c = false) (l : List Char) :
    skipWs (c :: l) = c :: l := by
  simp [skipWs, List.dropWhile_cons, hc]

theorem skipWs_cons_pos {c : Char} (hc : isJsonWs c = true) (l : List Char) :
    skipWs (c :: l) = skipWs l := by
  simp [skipWs, List.dropWhile_cons, hc]

theorem natToDigitsAux_head : ∀ fuel n, n < fuel →
    ∃ d t, d < 10 ∧ natToDigitsAux fuel n = digitChar d :: t := by
  intro fuel
  induction fuel with
  | zero => omega
  | succ fuel ih =>
    intro n hn
    rw [natToDigitsAux]
    by_cases h : n < 10
    · exact ⟨n, [], h, by simp [h]⟩
    · have hdiv : n / 10 < fuel := by
        have : n / 10 < n := Nat.div_lt_self (by omega) (by omega)
        omega
      obtain ⟨d, t, hd, ht⟩ := ih (n / 10) hdiv
      exact ⟨d, t ++ [digitChar (n % 10)], hd, by simp [h, ht]⟩

theorem natToDigits_head (n : Nat) :
    ∃ d t, d < 10 ∧ natToDigits n = digitChar d :: t :=
  natToDigitsAux_head (n + 1) n (by omega)

theorem digitChar_facts {d : Nat} (h : d < 10) :
    isJsonWs (digitChar d) = false ∧ ¬(digitChar d = 'n') ∧ ¬(digitChar d = 't') ∧
    ¬(digitChar d = 'f') ∧ ¬(digitChar d = '"') ∧ ¬(digitChar d = '[') ∧
    ¬(digitChar d = '\x7b') ∧ ¬(digitChar d = '-') ∧ ¬(digitChar d = ']') ∧
    ¬(digitChar d = '\x7d') := by
  interval_cases d <;> exact ⟨rfl, by decide, by decide, by decide, by decide,
    by decide, by decide, by decide, by decide, by decide⟩

theorem sizeItems_cons_pos (x : Json) (xs : JsonItems) :
    1 ≤ sizeItems (.cons x xs) := by
  simp only [sizeItems]
  omega

theorem sizeMembers_cons_pos (k : String) (v : Json) (kvs : JsonMembers) :
    1 ≤ sizeMembers (.cons k v kvs) := by
  simp only [sizeMembers]
  omega

theorem parseVal_cons_ws {c : Char} (hc : isJsonWs c = true) :
    ∀ fuel l, parseVal fuel (c :: l) = parseVal fuel l
  | 0, l => rfl
  | Nat.succ f, l => by
    rw [parseVal.eq_def]
    conv_rhs => rw [parseVal.eq_def]
    simp only [skipWs_cons_pos hc]

theorem parseItems_cons_ws {c : Char} (hc : isJsonWs c = true) :
    ∀ fuel l, parseItems fuel (c :: l) = parseItems fuel l
  | 0, l => rfl
  | Nat.succ f, l => by
    rw [parseItems.eq_def]
    conv_rhs => rw [parseItems.eq_def]
    simp only [parseVal_cons_ws hc]

theorem dumpChars_head (v : Json) :
    ∃ c t, dumpChars v = c :: t ∧ isJsonWs c = false ∧ ¬(c = ']') ∧ ¬(c = '\x7d') := by
  rcases v with _ | b | n | s | (_ | ⟨x, xs⟩) | (_ | ⟨k, v2, kvs⟩)
  · exact ⟨'n', ['u', 'l', 'l'], by decide, rfl, by decide, by decide⟩
  · cases b
    · exact ⟨'f', ['a', 'l', 's', 'e'], by decide, rfl, by decide, by decide⟩
    · exact ⟨'t', ['r', 'u', 'e'], by decide, rfl, by decide, by decide⟩
  · by_cases hn : n < 0
    · exact ⟨'-', natToDigits n.natAbs, by simp [dumpChars, hn], rfl, by decide, by decide⟩
    · obtain ⟨d, t, hd, ht⟩ := natToDigits_head n.toNat
      obtain ⟨f0, _, _, _, _, _, _, _, f8, f9⟩ := digitChar_facts hd
      exact ⟨digitChar d, t, by simp [dumpChars, hn, ht], f0, f8, f9⟩
  · exact ⟨'"', escapeChars s.toList ++ ['"'], by simp [dumpChars], rfl, by decide, by decide⟩
  · exact ⟨'[', [']'], by simp [dumpChars], rfl, by decide, by decide⟩
  · exact ⟨'[', dumpItems (.cons x xs) ++ [']'], by simp [dumpChars], rfl, by decide,
      by decide⟩
  · exact ⟨'\x7b', ['\x7d'], by simp [dumpChars], rfl, by decide, by decide⟩
  · exact ⟨'\x7b', dumpMembers (.cons k v2 kvs) ++ ['\x7d'], by simp [dumpChars], rfl,
      by decide, by decide⟩

theorem dumpItems_head (x : Json) (xs : JsonItems) :
    ∃ c t, dumpItems (.cons x xs) = c :: t ∧ isJsonWs c = false ∧ ¬(c = ']') := by
  obtain ⟨c, t, hct, hws, hne, _⟩ := dumpChars_head x
  cases xs with
  | nil => exact ⟨c, t, by simp [dumpItems, hct], hws, hne⟩
  | cons y ys =>
    exact ⟨c, t ++ (',' :: ' ' :: dumpItems (.cons y ys)), by simp [dumpItems, hct],
      hws, hne⟩

theorem dumpMembers_head (k : String) (v : Json) (kvs : JsonMembers) :
    ∃ t, dumpMembers (.cons k v kvs) = '"' :: t := by
  cases kvs with
  | nil =>
    exact ⟨escapeChars k.toList ++ '"' :: ':' :: ' ' :: dumpChars v, by simp [dumpMembers]⟩
  | cons k2 v2 rest =>
    exact ⟨escapeChars k.toList ++ '"' :: ':' :: ' ' ::
      (dumpChars v ++ ',' :: ' ' :: dumpMembers (.cons k2 v2 rest)), by simp [dumpMembers]⟩

theorem parse_dump_all : ∀ fuel : Nat,
    (∀ v rest, sizeV v ≤ fuel → noDigitHead rest = true →
      parseVal fuel (dumpChars v ++ rest) = some (v, rest)) ∧
    (∀ x xs rest, sizeItems (.cons x xs) ≤ fuel →
      parseItems fuel (dumpItems (.cons x xs) ++ ']' :: rest) =
        some (JsonItems.cons x xs, rest)) ∧
    (∀ k v kvs rest, sizeMembers (.cons k v kvs) ≤ fuel →
      parseMembers fuel (dumpMembers (.cons k v kvs) ++ '\x7d' :: rest) =
        some (JsonMembers.cons k v kvs, rest)) := by
  intro fuel
  induction fuel with
  | zero =>
    refine ⟨fun v rest hs _ => absurd hs (by have := sizeV_pos v; omega),
      fun x xs rest hs => absurd hs (by have := sizeItems_cons_pos x xs; omega),
      fun k v kvs rest hs => absurd hs (by have := sizeMembers_cons_pos k v kvs; omega)⟩
  | succ fuel ih =>
    obtain ⟨ihP, ihQ, ihR⟩ := ih
    refine ⟨?_, ?_, ?_⟩
    · intro v rest hsize hrest
      rcases v with _ | b | n | s | xs | kvs
      · rw [show dumpChars .null ++ rest = 'n' :: 'u' :: 'l' :: 'l' :: rest by
          simp only [dumpChars]; rfl]
        rw [parseVal.eq_def]
        simp [skipWs, isJsonWs, List.isPrefixOf]
      · cases b
        · rw [show dumpChars (.bool false) ++ rest = 'f' :: 'a' :: 'l' :: 's' :: 'e' :: rest by
            simp only [dumpChars]; rfl]
          rw [parseVal.eq_def]
          simp [skipWs, isJsonWs, List.isPrefixOf]
        · rw [show dumpChars (.bool true) ++ rest = 't' :: 'r' :: 'u' :: 'e' :: rest by
            simp only [dumpChars]; rfl]
          rw [parseVal.eq_def]
          simp [skipWs, isJsonWs, List.isPrefixOf]
      · by_cases hn : n < 0
        · rw [show dumpChars (.num n) ++ rest = '-' :: (natToDigits n.natAbs ++ rest) by
            simp [dumpChars, hn]]
          rw [parseVal.eq_def]
          simp only [skipWs_cons_neg (show isJsonWs '-' = false from rfl),
            show ('-' = 'n') = False by decide, show ('-' = 't') = False by decide,
            show ('-' = 'f') = False by decide, show ('-' = '"') = False by decide,
            show ('-' = '[') = False by decide, show ('-' = '\x7b') = False by decide,
            show ('-' = '-') = True by decide, if_false, if_true]
          rw [parseNat_digits n.natAbs rest hrest]
          simp only [Option.some.injEq, Json.num.injEq, Prod.mk.injEq]
          exact ⟨by omega, trivial⟩
        · obtain ⟨d, t, hd, ht⟩ := natToDigits_head n.toNat
          obtain ⟨f0, f1, f2, f3, f4, f5, f6, f7, f8, f9⟩ := digitChar_facts hd
          rw [show dumpChars (.num n) ++ rest = natToDigits n.toNat ++ rest by
            simp [dumpChars, hn]]
          rw [ht, List.cons_append, parseVal.eq_def]
          simp only [skipWs_cons_neg f0, if_neg f1, if_neg f2, if_neg f3, if_neg f4,
            if_neg f5, if_neg f6, if_neg f7]
          rw [show digitChar d :: (t ++ rest) = (digitChar d :: t) ++ rest from rfl, ← ht,
            parseNat_digits n.toNat rest hrest]
          simp [Int.toNat_of_nonneg (by omega : (0 : Int) ≤ n)]
      · rw [show dumpChars (.str s) ++ rest = '"' :: (escapeChars s.toList ++ ('"' :: rest)) by
          simp [dumpChars]]
        rw [parseVal.eq_def]
        simp [skipWs, isJsonWs, parseStrAux_escape]
      · cases xs with
        | nil =>
          rw [show dumpChars (.arr .nil) ++ rest = '[' :: ']' :: rest by simp [dumpChars]]
          rw [parseVal.eq_def]
          simp [skipWs, isJsonWs]
        | cons x xs2 =>
          obtain ⟨c, t, hct, hws, hne⟩ := dumpItems_head x xs2
          simp only [sizeV, sizeItems] at hsize
          rw [show dumpChars (.arr (.cons x xs2)) ++ rest =
              '[' :: (dumpItems (.cons x xs2) ++ (']' :: rest)) by simp [dumpChars]]
          rw [hct, List.cons_append, parseVal.eq_def]
          simp [skipWs_cons_neg (show isJsonWs '[' = false from rfl),
            skipWs_cons_neg hws, hne]
          rw [← List.cons_append, ← hct]
          exact ihQ x xs2 rest (by simp only [sizeItems]; omega)
      · cases kvs with
        | nil =>
          rw [show dumpChars (.obj .nil) ++ rest = '\x7b' :: '\x7d' :: rest by
            simp [dumpChars]]
          rw [parseVal.eq_def]
          simp [skipWs, isJsonWs]
        | cons k v2 kvs2 =>
          obtain ⟨t, hct⟩ := dumpMembers_head k v2 kvs2
          simp only [sizeV, sizeMembers] at hsize
          rw [show dumpChars (.obj (.cons k v2 kvs2)) ++ rest =
              '\x7b' :: (dumpMembers (.cons k v2 kvs2) ++ ('\x7d' :: rest)) by
            simp [dumpChars]]
          rw [hct, List.cons_append, parseVal.eq_def]
          simp [skipWs_cons_neg (show isJsonWs '\x7b' = false from rfl),
            skipWs_cons_neg (show isJsonWs '"' = false from rfl)]
          rw [← List.cons_append, ← hct]
          exact ihR k v2 kvs2 rest (by simp only [sizeMembers]; omega)
    · intro x xs rest hsize
      cases xs with
      | nil =>
        simp only [sizeItems] at hsize
        rw [show dumpItems (.cons x .nil) ++ ']' :: rest = dumpChars x ++ ']' :: rest by
          simp [dumpItems]]
        rw [parseItems.eq_def]
        simp only [ihP x (']' :: rest) (by omega) rfl]
        simp [skipWs_cons_neg (show isJsonWs ']' = false from rfl)]
      | cons y ys =>
        simp only [sizeItems] at hsize
        rw [show dumpItems (.cons x (.cons y ys)) ++ ']' :: rest =
            dumpChars x ++ (',' :: ' ' :: (dumpItems (.cons y ys) ++ ']' :: rest)) by
          simp [dumpItems]]
        rw [parseItems.eq_def]
        simp only [ihP x (',' :: ' ' :: (dumpItems (.cons y ys) ++ ']' :: rest))
          (by omega) rfl]
        simp [skipWs_cons_neg (show isJsonWs ',' = false from rfl)]
        rw [parseItems_cons_ws (show isJsonWs ' ' = true from rfl),
          ihQ y ys rest (by simp only [sizeItems]; omega)]
    · intro k v kvs rest hsize
      cases kvs with
      | nil =>
        simp only [sizeMembers] at hsize
        rw [show dumpMembers (.cons k v .nil) ++ '\x7d' :: rest =
            '"' :: (escapeChars k.toList ++
              ('"' :: (':' :: ' ' :: (dumpChars v ++ '\x7d' :: rest)))) by
          simp [dumpMembers]]
        rw [parseMembers.eq_def]
        simp only [parseStrAux_escape]
        simp only [skipWs_cons_neg (show isJsonWs ':' = false from rfl)]
        rw [parseVal_cons_ws (show isJsonWs ' ' = true from rfl),
          ihP v ('\x7d' :: rest) (by omega) rfl]
        simp [skipWs_cons_neg (show isJsonWs '\x7d' = false from rfl)]
      | cons k2 v2 kvs2 =>
        simp only [sizeMembers] at hsize
        obtain ⟨t2, hct2⟩ := dumpMembers_head k2 v2 kvs2
        rw [show dumpMembers (.cons k v (.cons k2 v2 kvs2)) ++ '\x7d' :: rest =
            '"' :: (escapeChars k.toList ++ ('"' :: (':' :: ' ' ::
              (dumpChars v ++ (',' :: ' ' ::
                (dumpMembers (.cons k2 v2 kvs2) ++ '\x7d' :: rest)))))) by
          simp [dumpMembers]]
        rw [parseMembers.eq_def]
        simp only [parseStrAux_escape]
        simp only [skipWs_cons_neg (show isJsonWs ':' = false from rfl)]
        rw [parseVal_cons_ws (show isJsonWs ' ' = true from rfl),
          ihP v (',' :: ' ' :: (dumpMembers (.cons k2 v2 kvs2) ++ '\x7d' :: rest))
            (by omega) rfl]
        simp [skipWs_cons_neg (show isJsonWs ',' = false from rfl)]
        rw [skipWs_cons_pos (show isJsonWs ' ' = true from rfl), hct2, List.cons_append,
          skipWs_cons_neg (show isJsonWs '"' = false from rfl), ← List.cons_append, ← hct2,
          ihR k2 v2 kvs2 rest (by simp only [sizeMembers]; omega)]

mutual

theorem sizeV_le_dumpLen : ∀ v : Json, sizeV v ≤ (dumpChars v).length
  | .null => by decide
  | .bool b => by cases b <;> decide
  | .num n => by
    obtain ⟨-, hne, -⟩ := natToDigits_spec n.toNat
    obtain ⟨-, hne2, -⟩ := natToDigits_spec n.natAbs
    by_cases hn : n < 0 <;>
      simp [sizeV, dumpChars, hn, Nat.one_le_iff_ne_zero, List.length_eq_zero, hne, hne2]
  | .str s => by simp [sizeV, dumpChars]
  | .arr .nil => by simp [sizeV, sizeItems, dumpChars]
  | .arr (.cons x xs) => by
    have h := sizeItems_le_dumpLen x xs
    simp only [sizeV, dumpChars, List.length_cons, List.length_append,
      List.length_singleton]
    omega
  | .obj .nil => by simp [sizeV, sizeMembers, dumpChars]
  | .obj (.cons k v kvs) => by
    have h := sizeMembers_le_dumpLen k v kvs
    simp only [sizeV, dumpChars, List.length_cons, List.length_append,
      List.length_singleton]
    omega
termination_by v => sizeOf v

theorem sizeItems_le_dumpLen : ∀ (x : Json) (xs : JsonItems),
    sizeItems (.cons x xs) ≤ (dumpItems (.cons x xs)).length + 1
  | x, .nil => by
    have h := sizeV_le_dumpLen x
    simp only [sizeItems, dumpItems]
    omega
  | x, .cons y ys => by
    have h1 := sizeV_le_dumpLen x
    have h2 := sizeItems_le_dumpLen y ys
    simp only [sizeItems] at h2
    simp only [sizeItems, dumpItems, List.length_append, List.length_cons]
    omega
termination_by x xs => sizeOf x + sizeOf xs

theorem sizeMembers_le_dumpLen : ∀ (k : String) (v : Json) (kvs : JsonMembers),
    sizeMembers (.cons k v kvs) ≤ (dumpMembers (.cons k v kvs)).length + 1
  | _k, v, .nil => by
    have h := sizeV_le_dumpLen v
    simp only [sizeMembers, dumpMembers, List.length_cons, List.length_append]
    omega
  | _k, v, .cons k2 v2 rest => by
    have h1 := sizeV_le_dumpLen v
    have h2 := sizeMembers_le_dumpLen k2 v2 rest
    simp only [sizeMembers] at h2
    simp only [sizeMembers, dumpMembers, List.length_cons, List.length_append]
    omega
termination_by _k v kvs => sizeOf v + sizeOf kvs

end

/-- Round trip at the top level: the serialized form of any JSON value
parses back to that value.  This is what makes every arguments payload
produced by the Call Record Builder valid JSON text. -/
theorem jsonLoadsChars_dump (v : Json) : jsonLoadsChars (dumpChars v) = some v := by
  have h := (parse_dump_all ((dumpChars v).length + 1)).1 v []
    (le_trans (sizeV_le_dumpLen v) (Nat.le_succ _)) rfl
  rw [List.append_nil] at h
  simp [jsonLoadsChars, h, skipWs]

theorem jsonLoads_mk_dump (v : Json) :
    jsonLoads (String.mk (dumpChars v)) = some v := by
  simpa [jsonLoads] using jsonLoadsChars_dump v

/-- The per-span loop keeps exactly the records of the decodable spans, in
order: a failing span is skipped and never aborts the loop. -/
theorem extractLoop_eq_filterMap (d : List Char → Option ToolCall) (l : List (List Char)) :
    extractLoop d l = l.filterMap d := by
  induction l with
  | nil => simp [extractLoop]
  | cons x rest ih =>
    cases hd : d x <;> simp [extractLoop, hd, ih, List.filterMap_cons]

/-- Without the begin tag anywhere in the text, the block scanner finds
nothing (the regex has no match). -/
theorem dsBlocks_nil_of_not_hasSub {l : List Char}
    (h : hasSub l DeepSeekR1.call_begin.toList = false) :
    DeepSeekR1.toolCallBlocks l = [] := by
  have hf : findSub DeepSeekR1.call_begin.toList l = none := by
    cases hf : findSub DeepSeekR1.call_begin.toList l with
    | none => rfl
    | some j =>
      simp only [hasSub] at h
      rw [hf] at h
      simp at h
  unfold DeepSeekR1.toolCallBlocks
  rw [show l.length + 1 = Nat.succ l.length from rfl, DeepSeekR1.scanBlocks.eq_def]
  simp only [List.drop_zero, hf]

/-- The first detected span starts exactly at the first occurrence of the
begin tag: the non-greedy match begins at the leftmost begin tag, and if
no end tag follows it, no later begin tag has one either, so there is no
span at all. -/
theorem dsBlocks_head_start {l : List Char} {i : Nat} {b : List Char}
    {bs : List (Nat × List Char)}
    (h : DeepSeekR1.toolCallBlocks l = (i, b) :: bs) :
    findSub DeepSeekR1.call_begin.toList l = some i := by
  unfold DeepSeekR1.toolCallBlocks at h
  rw [show l.length + 1 = Nat.succ l.length from rfl, DeepSeekR1.scanBlocks.eq_def] at h
  simp only [List.drop_zero] at h
  cases hf : findSub DeepSeekR1.call_begin.toList l with
  | none =>
    simp only [hf] at h
    exact absurd h (by simp)
  | some j =>
    simp only [hf] at h
    cases he : findSub DeepSeekR1.call_end.toList
        (l.drop (0 + j + DeepSeekR1.call_begin.toList.length)) with
    | none =>
      simp only [he] at h
      exact absurd h (by simp)
    | some d =>
      simp only [he, List.cons.injEq, Prod.mk.injEq] at h
      rw [show i = 0 + j from h.1.1.symm]
      simp

/-- The non-streaming DeepSeek result's calls are exactly the decodable
block bodies, in textual order. -/
theorem ds_tool_calls_eq (t : String) :
    (DeepSeekR1.extract_tool_calls t).tool_calls =
      ((DeepSeekR1.toolCallBlocks t.toList).map (fun p => p.2)).filterMap
        DeepSeekR1.decodeBlock := by
  unfold DeepSeekR1.extract_tool_calls
  by_cases h : hasSub t.toList DeepSeekR1.calls_begin.toList
  · have h2 : hasSub t.data DeepSeekR1.calls_begin.data = true := h
    simp [h2, extractLoop_eq_filterMap]
  · have h2 : hasSub t.data DeepSeekR1.calls_begin.data = false := by
      simp only [Bool.not_eq_true] at h
      exact h
    have h3 : DeepSeekR1.toolCallBlocks t.data = [] :=
      dsBlocks_nil_of_not_hasSub (l := t.data) h2
    simp [h2, h3]

/-- The non-streaming Phi-4 result's calls are exactly the decodable
matches, in textual order. -/
theorem phi4_tool_calls_eq (t : String) :
    (Phi4Reasoning.extract_tool_calls t).tool_calls =
      (Phi4Reasoning.toolCallMatches t.toList).filterMap Phi4Reasoning.decodeMatch := by
  unfold Phi4Reasoning.extract_tool_calls
  simp [extractLoop_eq_filterMap]

/-- Shape of every record the builder produces: a nonempty name and an
arguments string that is a serialized JSON value. -/
theorem buildCallRecord_shape {nm args : Json} {tc : ToolCall}
    (h : buildCallRecord nm args = some tc) :
    ∃ s, nm = Json.str s ∧ ¬s = "" ∧
      tc = ⟨"function", ⟨s, String.mk (dumpChars args)⟩⟩ := by
  cases nm <;> simp [buildCallRecord] at h
  case str s =>
    by_cases hs : s = ""
    · simp [hs] at h
    · simp [hs] at h
      exact ⟨s, rfl, hs, h.symm⟩

/-- Every record a DeepSeek block decodes to comes from the builder. -/
theorem decodeBlock_shape {body : List Char} {tc : ToolCall}
    (h : DeepSeekR1.decodeBlock body = some tc) :
    ∃ s v, ¬s = "" ∧ tc = ⟨"function", ⟨s, String.mk (dumpChars v)⟩⟩ := by
  unfold DeepSeekR1.decodeBlock at h
  by_cases he : (stripChars body).isEmpty = true
  · simp [he] at h
  · simp only [Bool.not_eq_true] at he
    simp only [he, Bool.false_eq_true, if_false] at h
    cases hl : jsonLoadsChars (stripChars body) with
    | none => simp only [hl] at h; exact absurd h (by simp)
    | some call_obj =>
      simp only [hl] at h
      cases hn : jsonLookup call_obj "name" with
      | none => simp only [hn] at h; exact absurd h (by simp)
      | some nm =>
        cases hp : jsonLookup call_obj "parameters" with
        | none => simp only [hn, hp] at h; exact absurd h (by simp)
        | some ps =>
          simp only [hn, hp] at h
          obtain ⟨s, -, hs, htc⟩ := buildCallRecord_shape h
          exact ⟨s, ps, hs, htc⟩

/-- Every record a Phi-4 match decodes to comes from the builder. -/
theorem decodeMatch_shape {m : List Char} {tc : ToolCall}
    (h : Phi4Reasoning.decodeMatch m = some tc) :
    ∃ s v, ¬s = "" ∧ tc = ⟨"function", ⟨s, String.mk (dumpChars v)⟩⟩ := by
  unfold Phi4Reasoning.decodeMatch at h
  cases hl : jsonLoadsChars m with
  | none => simp only [hl] at h; exact absurd h (by simp)
  | some call =>
    simp only [hl] at h
    cases hn : jsonLookup call "name" with
    | none => simp only [hn] at h; exact absurd h (by simp)
    | some nm =>
      cases hp : jsonLookup call "arguments" with
      | none => simp only [hn, hp] at h; exact absurd h (by simp)
      | some args =>
        simp only [hn, hp] at h
        obtain ⟨s, -, hs, htc⟩ := buildCallRecord_shape h
        exact ⟨s, args, hs, htc⟩

/-! The claims. -/

/-- C5: for every input text in which the tag-delimited begin marker is
absent (respectively, in which the implicit-JSON structural pattern has no
match), extract returns calls_detected = false, an empty calls list, and
leftover_content equal to the full original text. -/
theorem claim_C5 :
    (∀ t : String, hasSub t.toList DeepSeekR1.calls_begin.toList = false →
      DeepSeekR1.extract_tool_calls t = ⟨false, [], some t⟩) ∧
    (∀ t : String, Phi4Reasoning.toolCallMatches t.toList = [] →
      Phi4Reasoning.extract_tool_calls t = ⟨false, [], some t⟩) := by
  constructor
  · intro t h
    simp only [DeepSeekR1.extract_tool_calls, h, Bool.not_false, if_true]
  · intro t h
    simp only [Phi4Reasoning.extract_tool_calls, h, extractLoop, List.isEmpty_nil,
      Bool.not_true, if_true]

/-- C5 witness: a plain text with no marker and no structural match takes
the fast path in both extractors. -/
theorem claim_C5_witness :
    (hasSub "hello world".toList DeepSeekR1.calls_begin.toList = false ∧
      DeepSeekR1.extract_tool_calls "hello world" = ⟨false, [], some "hello world"⟩) ∧
    (Phi4Reasoning.toolCallMatches "hello world".toList = [] ∧
      Phi4Reasoning.extract_tool_calls "hello world" = ⟨false, [], some "hello world"⟩) :=
  ⟨⟨by decide, claim_C5.1 "hello world" (by decide)⟩,
    ⟨by decide, claim_C5.2 "hello world" (by decide)⟩⟩

/-- C6: for every non-streaming extraction by either extractor, the
returned result satisfies: calls_detected is true if and only if the
calls list is non-empty. -/
theorem claim_C6 : ∀ t : String,
    ((DeepSeekR1.extract_tool_calls t).tools_called = true ↔
      (DeepSeekR1.extract_tool_calls t).tool_calls ≠ []) ∧
    ((Phi4Reasoning.extract_tool_calls t).tools_called = true ↔
      (Phi4Reasoning.extract_tool_calls t).tool_calls ≠ []) := by
  intro t
  constructor
  · by_cases h : hasSub t.data DeepSeekR1.calls_begin.data = true
    · simp [DeepSeekR1.extract_tool_calls, h, List.isEmpty_iff]
    · simp only [Bool.not_eq_true] at h
      simp [DeepSeekR1.extract_tool_calls, h]
  · simp [Phi4Reasoning.extract_tool_calls, List.isEmpty_iff]

/-- C7: a candidate span whose JSON fails to decode (or whose decoded
object lacks the name or parameters/arguments field) is skipped without
aborting extraction, and the returned calls list contains exactly the
records of the decodable spans in left-to-right textual order: the calls
are the filterMap of the span decoder over the detected spans. -/
theorem claim_C7 : ∀ t : String,
    (DeepSeekR1.extract_tool_calls t).tool_calls =
      ((DeepSeekR1.toolCallBlocks t.toList).map (fun p => p.2)).filterMap
        DeepSeekR1.decodeBlock ∧
    (Phi4Reasoning.extract_tool_calls t).tool_calls =
      (Phi4Reasoning.toolCallMatches t.toList).filterMap Phi4Reasoning.decodeMatch :=
  fun t => ⟨ds_tool_calls_eq t, phi4_tool_calls_eq t⟩

/-- Number of call events in one streaming step's output. -/
def callEventCount : Option DeltaMessage → Nat
  | some m => m.tool_calls.length
  | none => 0

/-- C1 counterexample: the streaming extractors keep no emitted-count
state, so a call that was already emitted is emitted again on a later
step of the same session.  Here the first step's current text ends at a
complete block and emits its call; the second step of the same session
appends only the free text " ok", yet the same call (same name, same
arguments, same index) is emitted a second time.  This refutes the
at-most-once part of the claim at a concrete session. -/
theorem claim_C1_counterexample :
    DeepSeekR1.extract_tool_calls_streaming
        "<｜tool▁call▁begin｜>\x7b\"name\": \"f\", \"parameters\": \x7b\x7d\x7d<｜tool▁call▁end｜>"
        "<｜tool▁call▁end｜>" "id1" =
      some ⟨none, [⟨0, "function", "id1", "f", "\x7b\x7d"⟩]⟩ ∧
    DeepSeekR1.extract_tool_calls_streaming
        ("<｜tool▁call▁begin｜>\x7b\"name\": \"f\", \"parameters\": \x7b\x7d\x7d<｜tool▁call▁end｜>" ++ " ok")
        " ok" "id2" =
      some ⟨none, [⟨0, "function", "id2", "f", "\x7b\x7d"⟩]⟩ := by
  exact ⟨by decide, by decide⟩

/-- C1 amended: within a single streaming session, every step's output
contains at most one call event; however, a completed call may be
re-emitted at later steps, because the extractors re-decode the last
complete span on every step and carry no emitted-count state. -/
theorem claim_C1_amended : ∀ current_text delta_text fresh_id : String,
    callEventCount
      (DeepSeekR1.extract_tool_calls_streaming current_text delta_text fresh_id) ≤ 1 ∧
    callEventCount
      (Phi4Reasoning.extract_tool_calls_streaming current_text delta_text fresh_id) ≤ 1 := by
  intro current_text delta_text fresh_id
  constructor
  · simp only [DeepSeekR1.extract_tool_calls_streaming]
    cases hb : (DeepSeekR1.toolCallBlocks current_text.toList).getLast? with
    | none => simp [callEventCount]
    | some m =>
      cases hd : DeepSeekR1.decodeBlock m.2 with
      | none => simp [hd, callEventCount]
      | some tc => simp [hd, callEventCount]
  · simp only [Phi4Reasoning.extract_tool_calls_streaming]
    cases hb : (Phi4Reasoning.toolCallMatches current_text.toList).getLast? with
    | none => simp [callEventCount]
    | some m =>
      cases hd : Phi4Reasoning.decodeMatch m with
      | none => simp [hd, callEventCount]
      | some tc => simp [hd, callEventCount]

set_option maxRecDepth 4000 in
/-- C2 counterexample: the claim says the emitted call event's ordinal
index equals the number of candidate spans in the current text minus one.
The DeepSeek streaming extractor hardcodes index 0: on a current text
holding two complete spans it emits the last span's call with index 0,
not 2 - 1 = 1. -/
theorem claim_C2_counterexample :
    DeepSeekR1.extract_tool_calls_streaming
        ("<｜tool▁call▁begin｜>\x7b\"name\": \"f\", \"parameters\": \x7b\x7d\x7d<｜tool▁call▁end｜>" ++
          "<｜tool▁call▁begin｜>\x7b\"name\": \"g\", \"parameters\": \x7b\x7d\x7d<｜tool▁call▁end｜>")
        "x" "id9" =
      some ⟨none, [⟨0, "function", "id9", "g", "\x7b\x7d"⟩]⟩ ∧
    (DeepSeekR1.toolCallBlocks
        ("<｜tool▁call▁begin｜>\x7b\"name\": \"f\", \"parameters\": \x7b\x7d\x7d<｜tool▁call▁end｜>" ++
          "<｜tool▁call▁begin｜>\x7b\"name\": \"g\", \"parameters\": \x7b\x7d\x7d<｜tool▁call▁end｜>").toList).length
      = 2 := by
  exact ⟨by decide, by decide⟩

/-- C2 amended: the Phi-4 streaming extractor tags its emitted call event
with ordinal index = (number of candidate spans in the current text) - 1,
as the claim states; the DeepSeek streaming extractor instead always tags
the emitted event with index 0, whatever the span count. -/
theorem claim_C2_amended :
    (∀ cur delta id msg tc,
      Phi4Reasoning.extract_tool_calls_streaming cur delta id = some msg →
      tc ∈ msg.tool_calls →
      tc.index = (Phi4Reasoning.toolCallMatches cur.toList).length - 1) ∧
    (∀ cur delta id msg tc,
      DeepSeekR1.extract_tool_calls_streaming cur delta id = some msg →
      tc ∈ msg.tool_calls → tc.index = 0) := by
  constructor
  · intro cur delta id msg tc hmsg hmem
    simp only [Phi4Reasoning.extract_tool_calls_streaming] at hmsg
    cases hb : (Phi4Reasoning.toolCallMatches cur.toList).getLast? with
    | none =>
      simp only [hb, Option.some.injEq] at hmsg
      rw [← hmsg] at hmem
      simp at hmem
    | some m =>
      cases hd : Phi4Reasoning.decodeMatch m with
      | none => simp only [hb, hd] at hmsg; exact absurd hmsg (by simp)
      | some tc2 =>
        simp only [hb, hd, Option.some.injEq] at hmsg
        rw [← hmsg] at hmem
        simp only [List.mem_singleton] at hmem
        rw [hmem]
  · intro cur delta id msg tc hmsg hmem
    simp only [DeepSeekR1.extract_tool_calls_streaming] at hmsg
    cases hb : (DeepSeekR1.toolCallBlocks cur.toList).getLast? with
    | none =>
      simp only [hb, Option.some.injEq] at hmsg
      rw [← hmsg] at hmem
      simp at hmem
    | some m =>
      cases hd : DeepSeekR1.decodeBlock m.2 with
      | none => simp only [hb, hd] at hmsg; exact absurd hmsg (by simp)
      | some tc2 =>
        simp only [hb, hd, Option.some.injEq] at hmsg
        rw [← hmsg] at hmem
        simp only [List.mem_singleton] at hmem
        rw [hmem]

/-- C2 amended witness: one concrete emitting step per extractor. -/
theorem claim_C2_amended_witness :
    (Phi4Reasoning.extract_tool_calls_streaming
        "A \x7b\"name\": \"f\", \"arguments\": 1\x7d B \x7b\"name\": \"g\", \"arguments\": 2\x7d"
        "x" "idA" =
      some ⟨none, [⟨1, "function", "phi4_tool_call_stream", "g", "2"⟩]⟩ ∧
      (⟨1, "function", "phi4_tool_call_stream", "g", "2"⟩ : DeltaToolCall).index =
        (Phi4Reasoning.toolCallMatches
          "A \x7b\"name\": \"f\", \"arguments\": 1\x7d B \x7b\"name\": \"g\", \"arguments\": 2\x7d".toList).length - 1) ∧
    (DeepSeekR1.extract_tool_calls_streaming
        "<｜tool▁call▁begin｜>\x7b\"name\": \"f\", \"parameters\": \x7b\x7d\x7d<｜tool▁call▁end｜>"
        "x" "idB" =
      some ⟨none, [⟨0, "function", "idB", "f", "\x7b\x7d"⟩]⟩ ∧
      (⟨0, "function", "idB", "f", "\x7b\x7d"⟩ : DeltaToolCall).index = 0) :=
  ⟨⟨by decide,
    claim_C2_amended.1
      "A \x7b\"name\": \"f\", \"arguments\": 1\x7d B \x7b\"name\": \"g\", \"arguments\": 2\x7d"
      "x" "idA" ⟨none, [⟨1, "function", "phi4_tool_call_stream", "g", "2"⟩]⟩
      ⟨1, "function", "phi4_tool_call_stream", "g", "2"⟩ (by decide) (by decide)⟩,
   ⟨by decide,
    claim_C2_amended.2
      "<｜tool▁call▁begin｜>\x7b\"name\": \"f\", \"parameters\": \x7b\x7d\x7d<｜tool▁call▁end｜>"
      "x" "idB" ⟨none, [⟨0, "function", "idB", "f", "\x7b\x7d"⟩]⟩
      ⟨0, "function", "idB", "f", "\x7b\x7d"⟩ (by decide) (by decide)⟩⟩

/-- C3 counterexample: the claim says every emitted call event carries a
correlation id obtained from the external fresh-unique-string generator at
that emission, and that two distinct events never share an id.  The Phi-4
streaming extractor never consults the generator: two distinct emissions
(different calls, different generator values "freshA" / "freshB" on offer)
both carry the fixed literal id "phi4_tool_call_stream". -/
theorem claim_C3_counterexample :
    Phi4Reasoning.extract_tool_calls_streaming
        "\x7b\"name\": \"f\", \"arguments\": 1\x7d" "d" "freshA" =
      some ⟨none, [⟨0, "function", "phi4_tool_call_stream", "f", "1"⟩]⟩ ∧
    Phi4Reasoning.extract_tool_calls_streaming
        "\x7b\"name\": \"g\", \"arguments\": 2\x7d" "d" "freshB" =
      some ⟨none, [⟨0, "function", "phi4_tool_call_stream", "g", "2"⟩]⟩ ∧
    ("phi4_tool_call_stream" : String) ≠ "freshA" ∧
    ("freshA" : String) ≠ "freshB" := by
  exact ⟨by decide, by decide, by decide, by decide⟩

/-- C3 amended: every call event emitted by the DeepSeek streaming
extractor carries exactly the id supplied by the external fresh-id
generator (random_tool_call_id) at that emission; the Phi-4 streaming
extractor instead stamps every call event with the fixed literal id
"phi4_tool_call_stream", shared by all its events. -/
theorem claim_C3_amended :
    (∀ cur delta id msg tc,
      DeepSeekR1.extract_tool_calls_streaming cur delta id = some msg →
      tc ∈ msg.tool_calls → tc.id = id) ∧
    (∀ cur delta id msg tc,
      Phi4Reasoning.extract_tool_calls_streaming cur delta id = some msg →
      tc ∈ msg.tool_calls → tc.id = "phi4_tool_call_stream") := by
  constructor
  · intro cur delta id msg tc hmsg hmem
    simp only [DeepSeekR1.extract_tool_calls_streaming] at hmsg
    cases hb : (DeepSeekR1.toolCallBlocks cur.toList).getLast? with
    | none =>
      simp only [hb, Option.some.injEq] at hmsg
      rw [← hmsg] at hmem
      simp at hmem
    | some m =>
      cases hd : DeepSeekR1.decodeBlock m.2 with
      | none => simp only [hb, hd] at hmsg; exact absurd hmsg (by simp)
      | some tc2 =>
        simp only [hb, hd, Option.some.injEq] at hmsg
        rw [← hmsg] at hmem
        simp only [List.mem_singleton] at hmem
        rw [hmem]
  · intro cur delta id msg tc hmsg hmem
    simp only [Phi4Reasoning.extract_tool_calls_streaming] at hmsg
    cases hb : (Phi4Reasoning.toolCallMatches cur.toList).getLast? with
    | none =>
      simp only [hb, Option.some.injEq] at hmsg
      rw [← hmsg] at hmem
      simp at hmem
    | some m =>
      cases hd : Phi4Reasoning.decodeMatch m with
      | none => simp only [hb, hd] at hmsg; exact absurd hmsg (by simp)
      | some tc2 =>
        simp only [hb, hd, Option.some.injEq] at hmsg
        rw [← hmsg] at hmem
        simp only [List.mem_singleton] at hmem
        rw [hmem]

/-- C3 amended witness: one concrete emitting step per extractor. -/
theorem claim_C3_amended_witness :
    (DeepSeekR1.extract_tool_calls_streaming
        "<｜tool▁call▁begin｜>\x7b\"name\": \"f\", \"parameters\": \x7b\x7d\x7d<｜tool▁call▁end｜>"
        "x" "fresh-7" =
      some ⟨none, [⟨0, "function", "fresh-7", "f", "\x7b\x7d"⟩]⟩ ∧
      (⟨0, "function", "fresh-7", "f", "\x7b\x7d"⟩ : DeltaToolCall).id = "fresh-7") ∧
    (Phi4Reasoning.extract_tool_calls_streaming
        "\x7b\"name\": \"f\", \"arguments\": 1\x7d" "x" "fresh-8" =
      some ⟨none, [⟨0, "function", "phi4_tool_call_stream", "f", "1"⟩]⟩ ∧
      (⟨0, "function", "phi4_tool_call_stream", "f", "1"⟩ : DeltaToolCall).id =
        "phi4_tool_call_stream") :=
  ⟨⟨by decide,
    claim_C3_amended.1
      "<｜tool▁call▁begin｜>\x7b\"name\": \"f\", \"parameters\": \x7b\x7d\x7d<｜tool▁call▁end｜>"
      "x" "fresh-7" ⟨none, [⟨0, "function", "fresh-7", "f", "\x7b\x7d"⟩]⟩
      ⟨0, "function", "fresh-7", "f", "\x7b\x7d"⟩ (by decide) (by decide)⟩,
   ⟨by decide,
    claim_C3_amended.2 "\x7b\"name\": \"f\", \"arguments\": 1\x7d" "x" "fresh-8"
      ⟨none, [⟨0, "function", "phi4_tool_call_stream", "f", "1"⟩]⟩
      ⟨0, "function", "phi4_tool_call_stream", "f", "1"⟩ (by decide) (by decide)⟩⟩

/-- C4 counterexample: the claim says leftover_content is None (not the
empty string) whenever the text before the first detected span is empty
after trimming.  The Phi-4 extractor returns the trimmed prefix without
the emptiness check: on an input that is exactly one call, the calls list
is non-empty and leftover_content is the empty string, not None. -/
theorem claim_C4_counterexample :
    Phi4Reasoning.extract_tool_calls "\x7b\"name\": \"f\", \"arguments\": 1\x7d" =
      ⟨true, [⟨"function", ⟨"f", "1"⟩⟩], some ""⟩ := by
  decide

/-- C4 amended: when the calls list is non-empty, the DeepSeek extractor
returns as leftover_content the whitespace-trimmed text preceding the
first detected call span, and None when that prefix trims to empty; the
Phi-4 extractor returns Some of the trimmed text preceding the first
occurrence of the first matched substring, even when it is the empty
string (never None). -/
theorem claim_C4_amended :
    (∀ (t : String) (i : Nat) (b : List Char) (bs : List (Nat × List Char)),
      DeepSeekR1.toolCallBlocks t.toList = (i, b) :: bs →
      (DeepSeekR1.extract_tool_calls t).tool_calls ≠ [] →
      (DeepSeekR1.extract_tool_calls t).content =
        (if pyStrip (String.mk (t.toList.take i)) = "" then none
         else some (pyStrip (String.mk (t.toList.take i))))) ∧
    (∀ (t : String) (m : List Char) (ms : List (List Char)),
      Phi4Reasoning.toolCallMatches t.toList = m :: ms →
      (Phi4Reasoning.extract_tool_calls t).tool_calls ≠ [] →
      (Phi4Reasoning.extract_tool_calls t).content =
        some (pyStrip (String.mk (pySplitHead t.toList m)))) := by
  constructor
  · intro t i b bs hblocks _hcalls
    have hf : findSub DeepSeekR1.call_begin.toList t.toList = some i :=
      dsBlocks_head_start hblocks
    have hhas : hasSub t.toList DeepSeekR1.calls_begin.toList = true := by
      have h1 : hasSub t.toList DeepSeekR1.call_begin.toList = true := by
        simp only [hasSub]
        rw [hf]
        rfl
      simpa only [DeepSeekR1.call_begin] using h1
    simp only [DeepSeekR1.extract_tool_calls, hhas, Bool.not_true, Bool.false_eq_true,
      if_false]
    have hsplit : pySplitHead t.toList DeepSeekR1.calls_begin.toList = t.toList.take i := by
      have hf2 : findSub DeepSeekR1.calls_begin.toList t.toList = some i := by
        simpa only [DeepSeekR1.call_begin] using hf
      simp only [pySplitHead, hf2]
    rw [hsplit]
  · intro t m ms hms hcalls
    have hne : extractLoop Phi4Reasoning.decodeMatch
        (Phi4Reasoning.toolCallMatches t.toList) ≠ [] := fun hcontra => hcalls hcontra
    have hemp : (extractLoop Phi4Reasoning.decodeMatch
        (Phi4Reasoning.toolCallMatches t.toList)).isEmpty = false := by
      cases hc : (extractLoop Phi4Reasoning.decodeMatch
          (Phi4Reasoning.toolCallMatches t.toList)).isEmpty
      · rfl
      · exact absurd (List.isEmpty_iff.mp hc) hne
    rw [hms] at hemp
    simp only [Phi4Reasoning.extract_tool_calls, hms, hemp, Bool.false_eq_true, if_false]

set_option maxRecDepth 4000 in
/-- C4 amended witness: a DeepSeek input with a non-empty prefix before
the span, and a Phi-4 input with a non-empty prefix before the match. -/
theorem claim_C4_amended_witness :
    (DeepSeekR1.toolCallBlocks
        "pre <｜tool▁call▁begin｜>\x7b\"name\": \"f\", \"parameters\": \x7b\x7d\x7d<｜tool▁call▁end｜>".toList =
        [(4, "\x7b\"name\": \"f\", \"parameters\": \x7b\x7d\x7d".toList)] ∧
      (DeepSeekR1.extract_tool_calls
        "pre <｜tool▁call▁begin｜>\x7b\"name\": \"f\", \"parameters\": \x7b\x7d\x7d<｜tool▁call▁end｜>").tool_calls ≠ [] ∧
      (DeepSeekR1.extract_tool_calls
        "pre <｜tool▁call▁begin｜>\x7b\"name\": \"f\", \"parameters\": \x7b\x7d\x7d<｜tool▁call▁end｜>").content =
        (if pyStrip (String.mk
            ("pre <｜tool▁call▁begin｜>\x7b\"name\": \"f\", \"parameters\": \x7b\x7d\x7d<｜tool▁call▁end｜>".toList.take 4)) = ""
         then none
         else some (pyStrip (String.mk
            ("pre <｜tool▁call▁begin｜>\x7b\"name\": \"f\", \"parameters\": \x7b\x7d\x7d<｜tool▁call▁end｜>".toList.take 4))))) ∧
    (Phi4Reasoning.toolCallMatches "X says \x7b\"name\": \"f\", \"arguments\": 1\x7d end".toList =
        ["\x7b\"name\": \"f\", \"arguments\": 1\x7d".toList] ∧
      (Phi4Reasoning.extract_tool_calls
        "X says \x7b\"name\": \"f\", \"arguments\": 1\x7d end").tool_calls ≠ [] ∧
      (Phi4Reasoning.extract_tool_calls
        "X says \x7b\"name\": \"f\", \"arguments\": 1\x7d end").content =
        some (pyStrip (String.mk (pySplitHead
          "X says \x7b\"name\": \"f\", \"arguments\": 1\x7d end".toList
          "\x7b\"name\": \"f\", \"arguments\": 1\x7d".toList)))) := by
  refine ⟨⟨by decide, by decide, ?_⟩, ⟨by decide, by decide, ?_⟩⟩
  · exact claim_C4_amended.1
      "pre <｜tool▁call▁begin｜>\x7b\"name\": \"f\", \"parameters\": \x7b\x7d\x7d<｜tool▁call▁end｜>"
      4 ("\x7b\"name\": \"f\", \"parameters\": \x7b\x7d\x7d".toList) [] (by decide) (by decide)
  · exact claim_C4_amended.2
      "X says \x7b\"name\": \"f\", \"arguments\": 1\x7d end"
      ("\x7b\"name\": \"f\", \"arguments\": 1\x7d".toList) [] (by decide) (by decide)

/-- C8 counterexample: the claim says incremental free text arriving
after a completed call is passed through as a plain-content event.  In
the source, once any complete span exists in the current text, the step
re-decodes the last span: here the delta " hi" is free text after a
completed call, yet the step's output is a call event (content = none),
not a content event carrying " hi". -/
theorem claim_C8_counterexample :
    DeepSeekR1.extract_tool_calls_streaming
        ("<｜tool▁call▁begin｜>\x7b\"name\": \"f\", \"parameters\": \x7b\x7d\x7d<｜tool▁call▁end｜>" ++ " hi")
        " hi" "id5" =
      some ⟨none, [⟨0, "function", "id5", "f", "\x7b\x7d"⟩]⟩ := by
  decide

/-- C8 amended: when no candidate spans exist in the current text, the
step emits a plain-content event carrying exactly the incremental
fragment, for both streaming extractors; but once at least one span
exists, no step output ever carries content — free text after a
completed call is not passed through. -/
theorem claim_C8_amended :
    (∀ cur delta id : String, DeepSeekR1.toolCallBlocks cur.toList = [] →
      DeepSeekR1.extract_tool_calls_streaming cur delta id = some ⟨some delta, []⟩) ∧
    (∀ cur delta id : String, Phi4Reasoning.toolCallMatches cur.toList = [] →
      Phi4Reasoning.extract_tool_calls_streaming cur delta id = some ⟨some delta, []⟩) ∧
    (∀ (cur delta id : String) (msg : DeltaMessage),
      DeepSeekR1.toolCallBlocks cur.toList ≠ [] →
      DeepSeekR1.extract_tool_calls_streaming cur delta id = some msg →
      msg.content = none) ∧
    (∀ (cur delta id : String) (msg : DeltaMessage),
      Phi4Reasoning.toolCallMatches cur.toList ≠ [] →
      Phi4Reasoning.extract_tool_calls_streaming cur delta id = some msg →
      msg.content = none) := by
  refine ⟨?_, ?_, ?_, ?_⟩
  · intro cur delta id h
    simp only [DeepSeekR1.extract_tool_calls_streaming, h, List.getLast?_nil]
  · intro cur delta id h
    simp only [Phi4Reasoning.extract_tool_calls_streaming, h, List.getLast?_nil]
  · intro cur delta id msg hne hmsg
    simp only [DeepSeekR1.extract_tool_calls_streaming] at hmsg
    cases hb : (DeepSeekR1.toolCallBlocks cur.toList).getLast? with
    | none =>
      have : (DeepSeekR1.toolCallBlocks cur.toList).getLast?.isSome = true :=
        List.getLast?_isSome.mpr hne
      rw [hb] at this
      simp at this
    | some m =>
      cases hd : DeepSeekR1.decodeBlock m.2 with
      | none => simp only [hb, hd] at hmsg; exact absurd hmsg (by simp)
      | some tc =>
        simp only [hb, hd, Option.some.injEq] at hmsg
        rw [← hmsg]
  · intro cur delta id msg hne hmsg
    simp only [Phi4Reasoning.extract_tool_calls_streaming] at hmsg
    cases hb : (Phi4Reasoning.toolCallMatches cur.toList).getLast? with
    | none =>
      have : (Phi4Reasoning.toolCallMatches cur.toList).getLast?.isSome = true :=
        List.getLast?_isSome.mpr hne
      rw [hb] at this
      simp at this
    | some m =>
      cases hd : Phi4Reasoning.decodeMatch m with
      | none => simp only [hb, hd] at hmsg; exact absurd hmsg (by simp)
      | some tc =>
        simp only [hb, hd, Option.some.injEq] at hmsg
        rw [← hmsg]

/-- C8 amended witness: a no-span step passes the fragment through as
content for both extractors, and a step whose text holds a complete span
emits no content. -/
theorem claim_C8_amended_witness :
    (DeepSeekR1.toolCallBlocks "just text".toList = [] ∧
      DeepSeekR1.extract_tool_calls_streaming "just text" "text" "idC" =
        some ⟨some "text", []⟩) ∧
    (Phi4Reasoning.toolCallMatches "just text".toList = [] ∧
      Phi4Reasoning.extract_tool_calls_streaming "just text" "text" "idD" =
        some ⟨some "text", []⟩) ∧
    (Phi4Reasoning.toolCallMatches "\x7b\"name\": \"f\", \"arguments\": 1\x7d hi".toList ≠ [] ∧
      Phi4Reasoning.extract_tool_calls_streaming
        "\x7b\"name\": \"f\", \"arguments\": 1\x7d hi" " hi" "idE" =
        some ⟨none, [⟨0, "function", "phi4_tool_call_stream", "f", "1"⟩]⟩ ∧
      (⟨none, [⟨0, "function", "phi4_tool_call_stream", "f", "1"⟩]⟩ : DeltaMessage).content =
        none) :=
  ⟨⟨by decide, claim_C8_amended.1 "just text" "text" "idC" (by decide)⟩,
   ⟨by decide, claim_C8_amended.2.1 "just text" "text" "idD" (by decide)⟩,
   ⟨by decide, by decide,
    claim_C8_amended.2.2.2 "\x7b\"name\": \"f\", \"arguments\": 1\x7d hi" " hi" "idE"
      ⟨none, [⟨0, "function", "phi4_tool_call_stream", "f", "1"⟩]⟩ (by decide) (by decide)⟩⟩

/-- C9: building a call record fails whenever the decoded name value is
not a string or is the empty string (the Call Record Builder contract,
modelled from the spec since the pydantic validation lives outside src/),
and consequently every record either extractor returns has a non-empty
name and an arguments field that is valid JSON text (it parses back). -/
theorem claim_C9 :
    (∀ nm args : Json, (buildCallRecord nm args).isSome = true ↔
      ∃ s, nm = Json.str s ∧ s ≠ "") ∧
    (∀ (t : String) (tc : ToolCall),
      tc ∈ (DeepSeekR1.extract_tool_calls t).tool_calls ++
        (Phi4Reasoning.extract_tool_calls t).tool_calls →
      tc.function.name ≠ "" ∧ (jsonLoads tc.function.arguments).isSome = true) := by
  constructor
  · intro nm args
    cases nm <;> simp [buildCallRecord]
  · intro t tc hmem
    rw [List.mem_append] at hmem
    have hshape : ∃ s v, ¬s = "" ∧
        tc = ⟨"function", ⟨s, String.mk (dumpChars v)⟩⟩ := by
      rcases hmem with hmem | hmem
      · rw [ds_tool_calls_eq] at hmem
        obtain ⟨body, -, hdec⟩ := List.mem_filterMap.mp hmem
        exact decodeBlock_shape hdec
      · rw [phi4_tool_calls_eq] at hmem
        obtain ⟨m, -, hdec⟩ := List.mem_filterMap.mp hmem
        exact decodeMatch_shape hdec
    obtain ⟨s, v, hs, rfl⟩ := hshape
    refine ⟨hs, ?_⟩
    rw [show (⟨"function", ⟨s, String.mk (dumpChars v)⟩⟩ : ToolCall).function.arguments =
      String.mk (dumpChars v) from rfl, jsonLoads_mk_dump]
    rfl

/-- C9 witness: a concrete extracted record has a non-empty name and
reparsable arguments. -/
theorem claim_C9_witness :
    ((⟨"function", ⟨"f", "1"⟩⟩ : ToolCall) ∈
      (DeepSeekR1.extract_tool_calls "\x7b\"name\": \"f\", \"arguments\": 1\x7d").tool_calls ++
        (Phi4Reasoning.extract_tool_calls "\x7b\"name\": \"f\", \"arguments\": 1\x7d").tool_calls) ∧
    ("f" : String) ≠ "" ∧ (jsonLoads "1").isSome = true :=
  ⟨by decide,
    (claim_C9.2 "\x7b\"name\": \"f\", \"arguments\": 1\x7d" ⟨"function", ⟨"f", "1"⟩⟩
      (by decide)).1,
    (claim_C9.2 "\x7b\"name\": \"f\", \"arguments\": 1\x7d" ⟨"function", ⟨"f", "1"⟩⟩
      (by decide)).2⟩

/-- C10: the implicit-JSON pattern is non-greedy and stops at the first
closing brace after the arguments key, so on an input that is exactly one
syntactically valid tool-call object whose arguments value is an object
with a key, the single match is truncated (it is the input minus its
final brace), its JSON decode fails, and extraction returns
calls_detected = false with an empty calls list and the full text as
content — even though the full input itself decodes as a JSON object with
name and arguments fields. -/
theorem claim_C10 :
    Phi4Reasoning.extract_tool_calls "\x7b\"name\": \"f\", \"arguments\": \x7b\"a\": 1\x7d\x7d" =
      ⟨false, [], some "\x7b\"name\": \"f\", \"arguments\": \x7b\"a\": 1\x7d\x7d"⟩ ∧
    jsonLoads "\x7b\"name\": \"f\", \"arguments\": \x7b\"a\": 1\x7d\x7d" =
      some (Json.obj (.cons "name" (.str "f")
        (.cons "arguments" (Json.obj (.cons "a" (.num 1) .nil)) .nil))) ∧
    Phi4Reasoning.toolCallMatches
        "\x7b\"name\": \"f\", \"arguments\": \x7b\"a\": 1\x7d\x7d".toList =
      ["\x7b\"name\": \"f\", \"arguments\": \x7b\"a\": 1\x7d".toList] ∧
    Phi4Reasoning.decodeMatch
        "\x7b\"name\": \"f\", \"arguments\": \x7b\"a\": 1\x7d".toList = none := by
  exact ⟨by decide, by rfl, by decide, by decide⟩
